import Mathlib

/-!
Verification development for the MotorDex backend (`server/server.ts`) and the
mobile collection component (`components/motorDexCamera.tsx`).

Strings are modelled as lists of characters (`Str`).  JavaScript string
operations (`trim`, `toUpperCase`, `replace(/\s+/g, ...)`, anchored regular
expressions over disjoint character classes) are translated into executable
Lean functions over `Str`.  The whitespace class is the ASCII fragment of
JavaScript `\s`; `toUpperCase`/`toLowerCase` are the ASCII case maps, which is
what the plate strings at issue exercise.
-/

set_option autoImplicit false

/-- Strings, modelled as lists of characters. -/
abbrev Str := List Char

/-- The character class `[A-Z]` of the plate regexes. -/
def isAZ (c : Char) : Bool := decide (65 ≤ c.toNat ∧ c.toNat ≤ 90)

/-- The character class `\d` of the plate regexes. -/
def isDigitCh (c : Char) : Bool := decide (48 ≤ c.toNat ∧ c.toNat ≤ 57)

/-- The character class `\s` (ASCII fragment): space, tab, LF, VT, FF, CR. -/
def isWsChar (c : Char) : Bool :=
  decide (c.toNat = 32 ∨ c.toNat = 9 ∨ c.toNat = 10 ∨ c.toNat = 11 ∨
    c.toNat = 12 ∨ c.toNat = 13)

/-- JavaScript `toUpperCase` on an ASCII character. -/
def jsToUpper (c : Char) : Char :=
  if 97 ≤ c.toNat ∧ c.toNat ≤ 122 then Char.ofNat (c.toNat - 32) else c

/-- JavaScript `toLowerCase` on an ASCII character. -/
def jsToLower (c : Char) : Char :=
  if 65 ≤ c.toNat ∧ c.toNat ≤ 90 then Char.ofNat (c.toNat + 32) else c

/-- JavaScript `String.prototype.trim`: strip leading and trailing whitespace. -/
def trimStr (s : Str) : Str :=
  ((s.dropWhile isWsChar).reverse.dropWhile isWsChar).reverse

/-- Models `text.replace(/\s+/g, '').toUpperCase()` — the normalization applied to
every candidate before validation and before being surfaced. -/
def cleanStr (s : Str) : Str :=
  (s.filter (fun c => !isWsChar c)).map jsToUpper

/-- Models `replace(/\n/g, ' ')`: newlines become spaces. -/
def newlineToSpace (s : Str) : Str :=
  s.map (fun c => if c = '\n' then ' ' else c)

/-- Helper for `replace(/\s+/g, ' ')`: the flag records whether the previous
character was part of a whitespace run already emitted as one space. -/
def collapseWsAux : Bool → Str → Str
  | _, [] => []
  | prevWs, c :: rest =>
    if isWsChar c then
      if prevWs then collapseWsAux true rest
      else ' ' :: collapseWsAux true rest
    else c :: collapseWsAux false rest

/-- Models `replace(/\s+/g, ' ')`: each maximal whitespace run becomes one space. -/
def collapseWs (s : Str) : Str := collapseWsAux false s

/-! ## The UK plate pattern matchers (`server.ts` lines 290–312)

Each regex of the `patterns` array is anchored (`^...$`) and alternates the
disjoint classes `[A-Z]` and `\d`, so greedy span matching is exact. -/

/-- Pattern `^[A-Z]{2}\d{2}[A-Z]{3}$` — current format, e.g. `AB12CDE`. -/
def matchCurrent (s : Str) : Bool :=
  let l1 := s.takeWhile isAZ
  let r1 := s.dropWhile isAZ
  let d := r1.takeWhile isDigitCh
  let r2 := r1.dropWhile isDigitCh
  let l2 := r2.takeWhile isAZ
  let r3 := r2.dropWhile isAZ
  decide (l1.length = 2 ∧ d.length = 2 ∧ l2.length = 3 ∧ r3 = [])

/-- Pattern `^[A-Z]\d{1,3}[A-Z]{3}$` — prefix format, e.g. `A123BCD`. -/
def matchPrefixFormat (s : Str) : Bool :=
  let l1 := s.takeWhile isAZ
  let r1 := s.dropWhile isAZ
  let d := r1.takeWhile isDigitCh
  let r2 := r1.dropWhile isDigitCh
  let l2 := r2.takeWhile isAZ
  let r3 := r2.dropWhile isAZ
  decide (l1.length = 1 ∧ 1 ≤ d.length ∧ d.length ≤ 3 ∧ l2.length = 3 ∧ r3 = [])

/-- Pattern `^[A-Z]{3}\d{1,3}[A-Z]$` — suffix format, e.g. `ABC123D`. -/
def matchSuffixFormat (s : Str) : Bool :=
  let l1 := s.takeWhile isAZ
  let r1 := s.dropWhile isAZ
  let d := r1.takeWhile isDigitCh
  let r2 := r1.dropWhile isDigitCh
  let l2 := r2.takeWhile isAZ
  let r3 := r2.dropWhile isAZ
  decide (l1.length = 3 ∧ 1 ≤ d.length ∧ d.length ≤ 3 ∧ l2.length = 1 ∧ r3 = [])

/-- Pattern `^[A-Z]{1,3}\d{1,4}$` — dateless format, e.g. `ABC1234`. -/
def matchDateless (s : Str) : Bool :=
  let l1 := s.takeWhile isAZ
  let r1 := s.dropWhile isAZ
  let d := r1.takeWhile isDigitCh
  let r2 := r1.dropWhile isDigitCh
  decide (1 ≤ l1.length ∧ l1.length ≤ 3 ∧ 1 ≤ d.length ∧ d.length ≤ 4 ∧ r2 = [])

/-- Pattern `^[A-Z]{2}\d{2}$` — partial current format, first part, e.g. `AB12`. -/
def matchPartial4 (s : Str) : Bool :=
  let l1 := s.takeWhile isAZ
  let r1 := s.dropWhile isAZ
  let d := r1.takeWhile isDigitCh
  let r2 := r1.dropWhile isDigitCh
  decide (l1.length = 2 ∧ d.length = 2 ∧ r2 = [])

/-- Pattern `^[A-Z]{3}$` — partial current format, second part, e.g. `CDE`. -/
def matchPartial3 (s : Str) : Bool :=
  let l1 := s.takeWhile isAZ
  let r1 := s.dropWhile isAZ
  decide (l1.length = 3 ∧ r1 = [])

/-- Models `patterns.some(pattern => pattern.test(cleanText))` — the disjunction of
the six anchored patterns, in array order. -/
def ukPatternTest (t : Str) : Bool :=
  matchCurrent t || matchPrefixFormat t || matchSuffixFormat t ||
    matchDateless t || matchPartial4 t || matchPartial3 t

/-- Models `isValidUKLicensePlate` (`server.ts` lines 290–312): normalize, then the
redundant `length >= 7` current-format check, then the pattern array. -/
def isValidUKLicensePlate (text : Str) : Bool :=
  let cleanText := cleanStr text
  (decide (7 ≤ cleanText.length) && matchCurrent cleanText) || ukPatternTest cleanText


/-! ## OCR annotations and the candidate extractor (`server.ts` lines 315–370) -/

/-- One OCR text annotation: the detected text and its bounding polygon.
The extractor reads only the text. -/
structure TextAnnot where
  description : Str
  vertices : List (Int × Int)
deriving DecidableEq

/-- Shorthand for an annotation built from a string literal. -/
def annot (s : String) : TextAnnot := ⟨s.data, []⟩

/-- Matches `[A-Z]{2}\d{2}\s*[A-Z]{3}` at the head of `s`; on success returns
the matched run and the remainder.  Greedy `\s*` is exact here because a
character dropped from it could never satisfy the following `[A-Z]`. -/
def matchPlateAt (s : Str) : Option (Str × Str) :=
  match s with
  | c1 :: c2 :: c3 :: c4 :: rest =>
    if isAZ c1 && isAZ c2 && isDigitCh c3 && isDigitCh c4 then
      let ws := rest.takeWhile isWsChar
      match rest.dropWhile isWsChar with
      | l1 :: l2 :: l3 :: rest3 =>
        if isAZ l1 && isAZ l2 && isAZ l3 then
          some (c1 :: c2 :: c3 :: c4 :: (ws ++ [l1, l2, l3]), rest3)
        else none
      | _ => none
    else none
  | _ => none

/-- Fueled scanner for `match(/[A-Z]{2}\d{2}\s*[A-Z]{3}/g)`: leftmost matches,
non-overlapping, resuming after each match.  Every step consumes at least one
character, so fuel `s.length` never runs out. -/
def scanPlatesAux : Nat → Str → List Str
  | 0, _ => []
  | _ + 1, [] => []
  | fuel + 1, c :: rest =>
    match matchPlateAt (c :: rest) with
    | some (m, r) => m :: scanPlatesAux fuel r
    | none => scanPlatesAux fuel rest

/-- All matches of `/[A-Z]{2}\d{2}\s*[A-Z]{3}/g` in `s`. -/
def scanPlates (s : Str) : List Str := scanPlatesAux s.length s

/-- Models `fullText.replace(/\n/g, ' ').replace(/\s+/g, ' ').trim()`. -/
def cleanFullText (t : Str) : Str := trimStr (collapseWs (newlineToSpace t))

/-- Method 1: regex scan of the first annotation's text (the closed-over
`fullText`, which is that text trimmed), each match normalized.  Skipped when
`fullText` is empty (falsy). -/
def method1Plates (anns : List TextAnnot) : List Str :=
  match anns with
  | [] => []
  | a0 :: _ =>
    let fullText := trimStr a0.description
    if fullText.isEmpty then []
    else (scanPlates (cleanFullText fullText)).map cleanStr

/-- Method 2: `annotations.forEach` — every annotation (including the first)
whose trimmed text is nonempty and passes the matcher is pushed, normalized. -/
def method2Plates (anns : List TextAnnot) : List Str :=
  anns.filterMap fun a =>
    let text := trimStr a.description
    if text ≠ [] ∧ isValidUKLicensePlate text = true then some (cleanStr text)
    else none

/-- Models `annotations.slice(1).map(a => a.description?.trim()).filter(Boolean)`. -/
def textSegments (anns : List TextAnnot) : List Str :=
  (anns.drop 1).filterMap fun a =>
    let t := trimStr a.description
    if t = [] then none else some t

/-- The strings `seg[i] + " " + seg[i+1]` for consecutive `i`. -/
def adjacentPairs : List Str → List Str
  | x :: y :: rest => (x ++ ' ' :: y) :: adjacentPairs (y :: rest)
  | _ => []

/-- The strings `seg[i] + seg[i+1] + " " + seg[i+2]` for consecutive `i`. -/
def adjacentTriples : List Str → List Str
  | x :: y :: z :: rest => (x ++ y ++ ' ' :: z) :: adjacentTriples (y :: z :: rest)
  | _ => []

/-- Method 3: adjacent two-segment combinations that pass the matcher. -/
def method3Plates (anns : List TextAnnot) : List Str :=
  (adjacentPairs (textSegments anns)).filterMap fun combined =>
    if isValidUKLicensePlate combined = true then some (cleanStr combined) else none

/-- Method 4: adjacent three-segment combinations that pass the matcher. -/
def method4Plates (anns : List TextAnnot) : List Str :=
  (adjacentTriples (textSegments anns)).filterMap fun combined =>
    if isValidUKLicensePlate combined = true then some (cleanStr combined) else none

/-- Models `[...new Set(plates)]`: JavaScript `Set` keeps first insertions, so the
result keeps the first occurrence of each value, in order; `seen` carries the
values already emitted. -/
def dedupeAux (seen : List Str) : List Str → List Str
  | [] => []
  | x :: xs =>
    if x ∈ seen then dedupeAux seen xs
    else x :: dedupeAux (x :: seen) xs

/-- Deduplication, first-seen order. -/
def dedupe (xs : List Str) : List Str := dedupeAux [] xs

/-- Models `extractLicensePlates` (`server.ts` lines 315–370): the four methods push
into `plates` in order; the result is the deduplicated list. -/
def extractLicensePlates (anns : List TextAnnot) : List Str :=
  dedupe (method1Plates anns ++ method2Plates anns ++
    method3Plates anns ++ method4Plates anns)


/-! ## Vehicle registry lookup (`server.ts` lines 54–230) -/

/-- Field `data.vehicle_description` of the registry payload. -/
structure VehicleDescription where
  year : Str
  make : Str
  model : Str
  bodystyle : Str
  color : Str
  engine : Str
  cylinders : Str
  gears : Str
  fuel_type : Str
deriving DecidableEq

/-- Fields `data.mot_tax_dues.mot_due` / `.tax_due`. -/
structure DueInfo where
  status : Str
  ends_on : Str
deriving DecidableEq

/-- Field `data.vehicle_performance`. -/
structure VehiclePerformance where
  power_bhp : Str
  power_kw : Str
  max_speed_mph : Str
deriving DecidableEq

/-- Field `data.fuel_economy` (mpg figures). -/
structure FuelEconomy where
  combined : Str
  extra_urban : Str
  urban_cold : Str
deriving DecidableEq

/-- Field `data` of a successful `VehicleDatabasesResponse`. -/
structure VehicleDbData where
  registration_number : Str
  vehicle_description : VehicleDescription
  date_first_registered : Str
  mot_due : DueInfo
  tax_due : DueInfo
  vehicle_performance : VehiclePerformance
  fuel_economy : FuelEconomy
  co2_emission : Str
  ved_co2_band : Str
deriving DecidableEq

/-- A 2xx registry response body: `status` plus the nested `data`. -/
structure VehicleDbResponse where
  status : Str
  data : VehicleDbData
deriving DecidableEq

/-- The flattened `VehicleData` record returned to the frontend. -/
structure VehicleData where
  registrationNumber : Str
  year : Str
  make : Str
  model : Str
  bodystyle : Str
  color : Str
  engine : Str
  cylinders : Str
  gears : Str
  fuel_type : Str
  date_first_registered : Str
  mot_due_status : Str
  mot_due_ends : Str
  tax_due_status : Str
  tax_due_ends : Str
  power_bhp : Str
  power_kw : Str
  max_speed_mph : Str
  fuel_economy_combined : Str
  fuel_economy_extra_urban : Str
  fuel_economy_urban : Str
  co2_emission : Str
  ved_co2_band : Str
deriving DecidableEq

/-- The structural projection from the nested payload to `VehicleData`
(`server.ts` lines 187–212). -/
def toVehicleData (d : VehicleDbData) : VehicleData :=
  { registrationNumber := d.registration_number
    year := d.vehicle_description.year
    make := d.vehicle_description.make
    model := d.vehicle_description.model
    bodystyle := d.vehicle_description.bodystyle
    color := d.vehicle_description.color
    engine := d.vehicle_description.engine
    cylinders := d.vehicle_description.cylinders
    gears := d.vehicle_description.gears
    fuel_type := d.vehicle_description.fuel_type
    date_first_registered := d.date_first_registered
    mot_due_status := d.mot_due.status
    mot_due_ends := d.mot_due.ends_on
    tax_due_status := d.tax_due.status
    tax_due_ends := d.tax_due.ends_on
    power_bhp := d.vehicle_performance.power_bhp
    power_kw := d.vehicle_performance.power_kw
    max_speed_mph := d.vehicle_performance.max_speed_mph
    fuel_economy_combined := d.fuel_economy.combined
    fuel_economy_extra_urban := d.fuel_economy.extra_urban
    fuel_economy_urban := d.fuel_economy.urban_cold
    co2_emission := d.co2_emission
    ved_co2_band := d.ved_co2_band }

/-- Outcome of the single `axios.get` to the registry, as observed by the
`try`/`catch` in `lookupVehicle`: a 2xx body, an HTTP error carrying a status
code (404, 5xx, ...), or a network-level failure (timeout, no response). -/
inductive HttpResult where
  | success (body : VehicleDbResponse)
  | errorResponse (status : Nat)
  | networkError
deriving DecidableEq

/-- Models `lookupVehicle` (`server.ts` lines 164–230).  The registry collaborator is
an oracle from the request key to an `HttpResult`.  Returns the mapped
`VehicleData` or `null`, paired with the list of registry request keys issued
(always exactly one, the cleaned registration).  Every `catch` branch — 404,
other HTTP errors, and network errors alike — returns `null`. -/
def lookupVehicle (http : Str → HttpResult) (registrationNumber : Str) :
    Option VehicleData × List Str :=
  let cleanReg := cleanStr registrationNumber
  (match http cleanReg with
   | HttpResult.success body =>
     if body.status = "success".data then some (toVehicleData body.data) else none
   | HttpResult.errorResponse _ => none
   | HttpResult.networkError => none,
   [cleanReg])

/-! ## The upload route (`server.ts` lines 232–435, after the Vision call) -/

/-- Consume between `lo` and `hi` digits (greedily; exact because the regex
continues with a non-digit). -/
def eatDigits (lo hi : Nat) (s : Str) : Option Str :=
  let d := s.takeWhile isDigitCh
  if lo ≤ d.length ∧ d.length ≤ hi then some (s.dropWhile isDigitCh) else none

/-- Consume one expected literal character. -/
def eatChar (c : Char) : Str → Option Str
  | x :: r => if x = c then some r else none
  | [] => none

/-- Consume `\s+` (greedily; exact because a digit follows in the regex). -/
def eatWs1 (s : Str) : Option Str :=
  let w := s.takeWhile isWsChar
  if 1 ≤ w.length then some (s.dropWhile isWsChar) else none

/-- Models `/^\d{2}\.\d{2}\.\d{2,4}\s+\d{1,2}:\d{2}:\d{2}$/.test(s)`. -/
def isTimestampStr (s : Str) : Bool :=
  (do
    let r ← eatDigits 2 2 s
    let r ← eatChar '.' r
    let r ← eatDigits 2 2 r
    let r ← eatChar '.' r
    let r ← eatDigits 2 4 r
    let r ← eatWs1 r
    let r ← eatDigits 1 2 r
    let r ← eatChar ':' r
    let r ← eatDigits 2 2 r
    let r ← eatChar ':' r
    let r ← eatDigits 2 2 r
    if r.isEmpty then some () else none : Option Unit).isSome

/-- The JSON body built by the `/upload` route.  `none` for `fullText`,
`allText`, `licensePlates` and `vehicleData` models an absent field. -/
structure UploadResponse where
  hasText : Bool
  text : List TextAnnot
  fullText : Option Str
  allText : Option Str
  licensePlates : Option (List Str)
  vehicleData : Option VehicleData
  message : Str
deriving DecidableEq

/-- The `/upload` handler after the Vision call returned `textAnns`
(`server.ts` lines 270–430).  Returns the response together with the list of
registry request keys issued while serving the request. -/
def handleUpload (http : Str → HttpResult) (textAnns : List TextAnnot) :
    UploadResponse × List Str :=
  match textAnns with
  | [] =>
    ({ hasText := false, text := [], fullText := none, allText := none,
       licensePlates := none, vehicleData := none,
       message := "No text detected in the image".data }, [])
  | a0 :: _ =>
    let fullText := trimStr a0.description
    let isTs := isTimestampStr (trimStr fullText)
    let isShort := !fullText.isEmpty && decide ((trimStr fullText).length < 2)
    let allText := (List.intercalate " | ".data (textAnns.map TextAnnot.description))
    match extractLicensePlates textAnns with
    | p :: rest =>
      let lk := lookupVehicle http p
      ({ hasText := true, text := textAnns,
         fullText := some (List.intercalate ", ".data (p :: rest)),
         allText := some allText,
         licensePlates := some (p :: rest),
         vehicleData := lk.1,
         message :=
           match lk.1 with
           | some _ => "License plate detected: ".data ++ p ++ " - Vehicle found!".data
           | none =>
             "License plate(s) detected: ".data ++
               List.intercalate ", ".data (p :: rest) ++
               " - Vehicle not found in database".data }, lk.2)
    | [] =>
      let meaningful : Option Str :=
        if ¬fullText.isEmpty ∧ isTs = false ∧ isShort = false then some fullText
        else none
      match meaningful with
      | none =>
        ({ hasText := false, text := [], fullText := none, allText := none,
           licensePlates := some [], vehicleData := none,
           message := "No meaningful text or license plates detected in the image".data },
         [])
      | some mt =>
        ({ hasText := true, text := textAnns, fullText := some mt,
           allText := some allText, licensePlates := some [], vehicleData := none,
           message := "Text detected but no valid UK license plates found".data }, [])

/-! ## Saving to the collection (`motorDexCamera.tsx` lines 110–146) -/

/-- One stored collection record. -/
structure CollectedVehicle where
  id : Str
  make : Str
  model : Str
  imageUri : Str
  dateSpotted : Str
  fullModel : Str
deriving DecidableEq

/-- The deduplication key: `` `${vehicle.make} ${vehicle.model}`.toLowerCase() ``. -/
def fullModelKey (vehicle : VehicleData) : Str :=
  (vehicle.make ++ ' ' :: vehicle.model).map jsToLower

/-- Models `saveToCollection`: if some stored record already has the key, the
collection is returned unchanged (duplicate alert path); otherwise the new
record is appended.  `newId` and `dateSpotted` stand for `Date.now()` and
`new Date().toISOString()`. -/
def saveToCollection (collection : List CollectedVehicle) (vehicle : VehicleData)
    (imageUri newId dateSpotted : Str) : List CollectedVehicle :=
  let fullModel := fullModelKey vehicle
  if collection.any (fun item => decide (item.fullModel = fullModel)) then collection
  else collection ++
    [{ id := newId, make := vehicle.make, model := vehicle.model,
       imageUri := imageUri, dateSpotted := dateSpotted, fullModel := fullModel }]

/-- A registry oracle whose every call fails at the network level. -/
def httpFail : Str → HttpResult := fun _ => HttpResult.networkError

/-- A registry oracle whose every call returns HTTP 404. -/
def http404 : Str → HttpResult := fun _ => HttpResult.errorResponse 404

/-- A concrete vehicle record used to exercise `saveToCollection`. -/
def sampleVehicle : VehicleData :=
  ⟨"AB12CDE".data, "2015".data, "Ford".data, "Focus".data, "Hatchback".data,
   "Blue".data, "999".data, "3".data, "6".data, "Petrol".data, "2015-09-01".data,
   "Valid".data, "2026-09-01".data, "Taxed".data, "2026-03-01".data, "123".data,
   "92".data, "120".data, "55".data, "65".data, "45".data, "108".data, "B".data⟩


/-! ## Helper lemmas: character classes -/

lemma isWsChar_eq_false_of_isAZ {c : Char} (h : isAZ c = true) : isWsChar c = false := by
  simp only [isAZ, decide_eq_true_eq] at h
  simp only [isWsChar, decide_eq_false_iff_not]
  omega

lemma isWsChar_eq_false_of_isDigitCh {c : Char} (h : isDigitCh c = true) :
    isWsChar c = false := by
  simp only [isDigitCh, decide_eq_true_eq] at h
  simp only [isWsChar, decide_eq_false_iff_not]
  omega

lemma isAZ_eq_false_of_isDigitCh {c : Char} (h : isDigitCh c = true) : isAZ c = false := by
  simp only [isDigitCh, decide_eq_true_eq] at h
  simp only [isAZ, decide_eq_false_iff_not]
  omega

lemma isDigitCh_eq_false_of_isAZ {c : Char} (h : isAZ c = true) : isDigitCh c = false := by
  simp only [isAZ, decide_eq_true_eq] at h
  simp only [isDigitCh, decide_eq_false_iff_not]
  omega

lemma jsToUpper_of_isAZ {c : Char} (h : isAZ c = true) : jsToUpper c = c := by
  simp only [isAZ, decide_eq_true_eq] at h
  simp only [jsToUpper, if_neg (by omega : ¬(97 ≤ c.toNat ∧ c.toNat ≤ 122))]

lemma jsToUpper_of_isDigitCh {c : Char} (h : isDigitCh c = true) : jsToUpper c = c := by
  simp only [isDigitCh, decide_eq_true_eq] at h
  simp only [jsToUpper, if_neg (by omega : ¬(97 ≤ c.toNat ∧ c.toNat ≤ 122))]

/-! ## Helper lemmas: spans, filters, maps -/

lemma takeWhile_append_of_all {p : Char → Bool} :
    ∀ (l1 l2 : Str), (∀ x ∈ l1, p x = true) →
      (l1 ++ l2).takeWhile p = l1 ++ l2.takeWhile p
  | [], _, _ => rfl
  | x :: l1, l2, h => by
    have hx : p x = true := h x (List.mem_cons_self x l1)
    simp only [List.cons_append, List.takeWhile_cons, hx, if_true]
    rw [takeWhile_append_of_all l1 l2 (fun y hy => h y (List.mem_cons_of_mem x hy))]

lemma dropWhile_append_of_all {p : Char → Bool} :
    ∀ (l1 l2 : Str), (∀ x ∈ l1, p x = true) →
      (l1 ++ l2).dropWhile p = l2.dropWhile p
  | [], _, _ => rfl
  | x :: l1, l2, h => by
    have hx : p x = true := h x (List.mem_cons_self x l1)
    simp only [List.cons_append, List.dropWhile_cons, hx, if_true]
    exact dropWhile_append_of_all l1 l2 (fun y hy => h y (List.mem_cons_of_mem x hy))

lemma takeWhile_eq_nil_of_head {p : Char → Bool} {x : Char} {l : Str}
    (hx : p x = false) : (x :: l).takeWhile p = [] := by
  simp [List.takeWhile_cons, hx]

lemma dropWhile_eq_self_of_head {p : Char → Bool} {x : Char} {l : Str}
    (hx : p x = false) : (x :: l).dropWhile p = x :: l := by
  simp [List.dropWhile_cons, hx]

lemma takeWhile_eq_self_of_all {p : Char → Bool} {l : Str}
    (h : ∀ x ∈ l, p x = true) : l.takeWhile p = l := by
  have := takeWhile_append_of_all l [] h
  simpa using this

lemma dropWhile_eq_nil_of_all {p : Char → Bool} {l : Str}
    (h : ∀ x ∈ l, p x = true) : l.dropWhile p = [] := by
  have := dropWhile_append_of_all l [] h
  simpa using this

lemma filter_eq_self_of_all {p : Char → Bool} :
    ∀ {l : Str}, (∀ x ∈ l, p x = true) → l.filter p = l
  | [], _ => rfl
  | x :: l, h => by
    have hx : p x = true := h x (List.mem_cons_self x l)
    simp only [List.filter_cons, hx, if_true]
    rw [filter_eq_self_of_all (fun y hy => h y (List.mem_cons_of_mem x hy))]

lemma map_eq_self_of_all {f : Char → Char} :
    ∀ {l : Str}, (∀ x ∈ l, f x = x) → l.map f = l
  | [], _ => rfl
  | x :: l, h => by
    simp only [List.map_cons, h x (List.mem_cons_self x l)]
    rw [map_eq_self_of_all (fun y hy => h y (List.mem_cons_of_mem x hy))]

lemma mem_takeWhile_sat {p : Char → Bool} :
    ∀ {l : Str} {x : Char}, x ∈ l.takeWhile p → p x = true
  | a :: l, x, h => by
    by_cases ha : p a = true
    · simp only [List.takeWhile_cons, ha, if_true, List.mem_cons] at h
      rcases h with rfl | h
      · exact ha
      · exact mem_takeWhile_sat h
    · simp [List.takeWhile_cons, Bool.of_not_eq_true ha] at h

lemma length_takeWhile_le' (p : Char → Bool) (l : Str) :
    (l.takeWhile p).length ≤ l.length :=
  (l.takeWhile_sublist p).length_le

/-! ## Helper lemmas: deduplication -/

lemma mem_dedupeAux {a : Str} :
    ∀ (xs seen : List Str), a ∈ dedupeAux seen xs ↔ (a ∈ xs ∧ a ∉ seen)
  | [], seen => by simp [dedupeAux]
  | x :: xs, seen => by
    by_cases hx : x ∈ seen
    · simp only [dedupeAux, if_pos hx, mem_dedupeAux xs seen, List.mem_cons]
      constructor
      · rintro ⟨h1, h2⟩; exact ⟨Or.inr h1, h2⟩
      · rintro ⟨h1 | h1, h2⟩
        · exact absurd (h1 ▸ hx) h2
        · exact ⟨h1, h2⟩
    · simp only [dedupeAux, if_neg hx, List.mem_cons, mem_dedupeAux xs (x :: seen)]
      constructor
      · rintro (rfl | ⟨h1, h2⟩)
        · exact ⟨Or.inl rfl, hx⟩
        · exact ⟨Or.inr h1, fun hs => h2 (Or.inr hs)⟩
      · rintro ⟨rfl | h1, h2⟩
        · exact Or.inl rfl
        · by_cases hax : a = x
          · exact Or.inl hax
          · exact Or.inr ⟨h1, by simp [List.mem_cons, hax, h2]⟩

lemma dedupeAux_sublist : ∀ (xs seen : List Str), (dedupeAux seen xs).Sublist xs
  | [], _ => List.Sublist.refl []
  | x :: xs, seen => by
    by_cases hx : x ∈ seen
    · simpa [dedupeAux, if_pos hx] using (dedupeAux_sublist xs seen).cons x
    · simpa [dedupeAux, if_neg hx] using (dedupeAux_sublist xs (x :: seen)).cons₂ x

lemma dedupeAux_nodup : ∀ (xs seen : List Str), (dedupeAux seen xs).Nodup
  | [], _ => List.nodup_nil
  | x :: xs, seen => by
    by_cases hx : x ∈ seen
    · simpa [dedupeAux, if_pos hx] using dedupeAux_nodup xs seen
    · simp only [dedupeAux, if_neg hx, List.nodup_cons]
      refine ⟨fun hmem => ?_, dedupeAux_nodup xs (x :: seen)⟩
      exact ((mem_dedupeAux xs (x :: seen)).mp hmem).2 (List.mem_cons_self x seen)

lemma dedupeAux_eq_self :
    ∀ (xs seen : List Str), xs.Nodup → (∀ a ∈ xs, a ∉ seen) → dedupeAux seen xs = xs
  | [], _, _, _ => rfl
  | x :: xs, seen, hnd, hdisj => by
    have hx : x ∉ seen := hdisj x (List.mem_cons_self x xs)
    simp only [dedupeAux, if_neg hx]
    rw [dedupeAux_eq_self xs (x :: seen) (List.nodup_cons.mp hnd).2]
    intro a ha
    simp only [List.mem_cons]
    push_neg
    exact ⟨fun h => (List.nodup_cons.mp hnd).1 (h ▸ ha),
      fun h => hdisj a (List.mem_cons_of_mem x ha) h⟩

lemma dedupeAux_congr :
    ∀ (xs s t : List Str), (∀ b, b ∈ s ↔ b ∈ t) → dedupeAux s xs = dedupeAux t xs
  | [], _, _, _ => rfl
  | x :: xs, s, t, h => by
    by_cases hx : x ∈ s
    · rw [dedupeAux, dedupeAux, if_pos hx, if_pos ((h x).mp hx)]
      exact dedupeAux_congr xs s t h
    · rw [dedupeAux, dedupeAux, if_neg hx, if_neg (fun ht => hx ((h x).mpr ht))]
      refine congrArg (x :: ·) (dedupeAux_congr xs (x :: s) (x :: t) ?_)
      intro b
      simp only [List.mem_cons, h b]

lemma foldl_insert_eq_dedupeAux :
    ∀ (xs acc : List Str),
      xs.foldl (fun acc x => if x ∈ acc then acc else acc ++ [x]) acc =
        acc ++ dedupeAux acc xs
  | [], acc => by simp [dedupeAux]
  | x :: xs, acc => by
    by_cases hx : x ∈ acc
    · simp only [List.foldl_cons, if_pos hx, dedupeAux, foldl_insert_eq_dedupeAux xs acc]
    · simp only [List.foldl_cons, if_neg hx, dedupeAux,
        foldl_insert_eq_dedupeAux xs (acc ++ [x])]
      rw [dedupeAux_congr xs (acc ++ [x]) (x :: acc) (by intro b; simp [List.mem_cons, or_comm])]
      simp

lemma mem_dedupe {a : Str} {xs : List Str} : a ∈ dedupe xs ↔ a ∈ xs := by
  simpa [dedupe] using mem_dedupeAux xs []

lemma dedupe_nodup (xs : List Str) : (dedupe xs).Nodup := dedupeAux_nodup xs []

lemma dedupe_idem (xs : List Str) : dedupe (dedupe xs) = dedupe xs := by
  exact dedupeAux_eq_self (dedupe xs) [] (dedupe_nodup xs) (by simp)

/-! ## Helper lemmas: matcher shapes and lengths -/

lemma span_length_split (p : Char → Bool) (l : Str) :
    (l.takeWhile p).length + (l.dropWhile p).length = l.length := by
  rw [← List.length_append, List.takeWhile_append_dropWhile]

lemma matchCurrent_length {t : Str} (h : matchCurrent t = true) : t.length = 7 := by
  simp only [matchCurrent, decide_eq_true_eq] at h
  obtain ⟨h1, h2, h3, h4⟩ := h
  have l1 := span_length_split isAZ t
  have l2 := span_length_split isDigitCh (t.dropWhile isAZ)
  have l3 := span_length_split isAZ ((t.dropWhile isAZ).dropWhile isDigitCh)
  rw [h4, List.length_nil] at l3
  omega

lemma matchPrefixFormat_length {t : Str} (h : matchPrefixFormat t = true) : 5 ≤ t.length := by
  simp only [matchPrefixFormat, decide_eq_true_eq] at h
  obtain ⟨h1, h2, _, h4, h5⟩ := h
  have l1 := span_length_split isAZ t
  have l2 := span_length_split isDigitCh (t.dropWhile isAZ)
  have l3 := span_length_split isAZ ((t.dropWhile isAZ).dropWhile isDigitCh)
  rw [h5, List.length_nil] at l3
  omega

lemma matchSuffixFormat_length {t : Str} (h : matchSuffixFormat t = true) : 5 ≤ t.length := by
  simp only [matchSuffixFormat, decide_eq_true_eq] at h
  obtain ⟨h1, h2, _, h4, h5⟩ := h
  have l1 := span_length_split isAZ t
  have l2 := span_length_split isDigitCh (t.dropWhile isAZ)
  have l3 := span_length_split isAZ ((t.dropWhile isAZ).dropWhile isDigitCh)
  rw [h5, List.length_nil] at l3
  omega

lemma matchDateless_length {t : Str} (h : matchDateless t = true) : 2 ≤ t.length := by
  simp only [matchDateless, decide_eq_true_eq] at h
  obtain ⟨h1, _, h3, _, h5⟩ := h
  have l1 := span_length_split isAZ t
  have l2 := span_length_split isDigitCh (t.dropWhile isAZ)
  rw [h5, List.length_nil] at l2
  omega

lemma matchPartial4_length {t : Str} (h : matchPartial4 t = true) : t.length = 4 := by
  simp only [matchPartial4, decide_eq_true_eq] at h
  obtain ⟨h1, h2, h3⟩ := h
  have l1 := span_length_split isAZ t
  have l2 := span_length_split isDigitCh (t.dropWhile isAZ)
  rw [h3, List.length_nil] at l2
  omega

lemma matchPartial3_length {t : Str} (h : matchPartial3 t = true) : t.length = 3 := by
  simp only [matchPartial3, decide_eq_true_eq] at h
  obtain ⟨h1, h2⟩ := h
  have l1 := span_length_split isAZ t
  rw [h2, List.length_nil] at l1
  omega

/-- Every pattern of the array needs at least two characters. -/
lemma ukPatternTest_eq_false_of_short {t : Str} (h : t.length < 2) :
    ukPatternTest t = false := by
  have c1 : matchCurrent t = false := by
    cases hb : matchCurrent t
    · rfl
    · have := matchCurrent_length hb; omega
  have c2 : matchPrefixFormat t = false := by
    cases hb : matchPrefixFormat t
    · rfl
    · have := matchPrefixFormat_length hb; omega
  have c3 : matchSuffixFormat t = false := by
    cases hb : matchSuffixFormat t
    · rfl
    · have := matchSuffixFormat_length hb; omega
  have c4 : matchDateless t = false := by
    cases hb : matchDateless t
    · rfl
    · have := matchDateless_length hb; omega
  have c5 : matchPartial4 t = false := by
    cases hb : matchPartial4 t
    · rfl
    · have := matchPartial4_length hb; omega
  have c6 : matchPartial3 t = false := by
    cases hb : matchPartial3 t
    · rfl
    · have := matchPartial3_length hb; omega
  simp [ukPatternTest, c1, c2, c3, c4, c5, c6]

/-- When every character of `t` is a digit, the leading letter span is empty,
so no pattern of the array matches. -/
lemma ukPatternTest_eq_false_of_all_digits {t : Str}
    (h : ∀ x ∈ t, isDigitCh x = true) : ukPatternTest t = false := by
  have haz : t.takeWhile isAZ = [] := by
    cases t with
    | nil => rfl
    | cons x l =>
      exact takeWhile_eq_nil_of_head
        (isAZ_eq_false_of_isDigitCh (h x (List.mem_cons_self x l)))
  have c1 : matchCurrent t = false := by
    simp [matchCurrent, haz]
  have c2 : matchPrefixFormat t = false := by
    simp [matchPrefixFormat, haz]
  have c3 : matchSuffixFormat t = false := by
    simp [matchSuffixFormat, haz]
  have c4 : matchDateless t = false := by
    simp [matchDateless, haz]
  have c5 : matchPartial4 t = false := by
    simp [matchPartial4, haz]
  have c6 : matchPartial3 t = false := by
    simp [matchPartial3, haz]
  simp [ukPatternTest, c1, c2, c3, c4, c5, c6]

/-- The normalization never lengthens a string. -/
lemma cleanStr_length_le (s : Str) : (cleanStr s).length ≤ s.length := by
  simp only [cleanStr, List.length_map]
  exact List.length_filter_le _ s

/-- Normalization is the identity on a string of plate-class characters. -/
lemma cleanStr_eq_self_of_classes {s : Str}
    (h : ∀ x ∈ s, isAZ x = true ∨ isDigitCh x = true) : cleanStr s = s := by
  unfold cleanStr
  rw [filter_eq_self_of_all]
  · apply map_eq_self_of_all
    intro x hx
    rcases h x hx with hx' | hx'
    · exact jsToUpper_of_isAZ hx'
    · exact jsToUpper_of_isDigitCh hx'
  · intro x hx
    rcases h x hx with hx' | hx'
    · simp [isWsChar_eq_false_of_isAZ hx']
    · simp [isWsChar_eq_false_of_isDigitCh hx']

/-- A string made of 2 letters, 2 digits, 3 letters passes the current-format
matcher. -/
lemma matchCurrent_of_shape {a b c : Str}
    (ha2 : a.length = 2) (hb2 : b.length = 2) (hc3 : c.length = 3)
    (haz : ∀ x ∈ a, isAZ x = true) (hbd : ∀ x ∈ b, isDigitCh x = true)
    (hcz : ∀ x ∈ c, isAZ x = true) : matchCurrent (a ++ b ++ c) = true := by
  rcases List.length_eq_two.mp ha2 with ⟨a0, a1, rfl⟩
  rcases List.length_eq_two.mp hb2 with ⟨b0, b1, rfl⟩
  rcases List.length_eq_three.mp hc3 with ⟨c0, c1, c2, rfl⟩
  have ha0 : isAZ a0 = true := haz a0 (by simp)
  have ha1 : isAZ a1 = true := haz a1 (by simp)
  have hb0 : isDigitCh b0 = true := hbd b0 (by simp)
  have hb1 : isDigitCh b1 = true := hbd b1 (by simp)
  have hc0 : isAZ c0 = true := hcz c0 (by simp)
  have hc1 : isAZ c1 = true := hcz c1 (by simp)
  have hc2 : isAZ c2 = true := hcz c2 (by simp)
  simp [matchCurrent, List.takeWhile_cons, List.dropWhile_cons,
    ha0, ha1, hb0, hb1, hc0, hc1, hc2,
    isAZ_eq_false_of_isDigitCh hb0, isDigitCh_eq_false_of_isAZ hc0]

/-! ## Helper lemmas: the full-text scanner -/

lemma filter_keep_eq_nil_of_all_ws :
    ∀ {l : Str}, (∀ x ∈ l, isWsChar x = true) → l.filter (fun c => !isWsChar c) = []
  | [], _ => rfl
  | x :: l, h => by
    simp only [List.filter_cons, h x (List.mem_cons_self x l), Bool.not_true,
      if_false]
    exact filter_keep_eq_nil_of_all_ws (fun y hy => h y (List.mem_cons_of_mem x hy))

/-- Anything `matchPlateAt` accepts normalizes to the current format. -/
lemma matchPlateAt_sound {s m r : Str} (h : matchPlateAt s = some (m, r)) :
    matchCurrent (cleanStr m) = true := by
  unfold matchPlateAt at h
  split at h
  case h_2 => exact absurd h (by simp)
  case h_1 c1 c2 c3 c4 rest =>
    split at h
    case isFalse => exact absurd h (by simp)
    case isTrue hcond =>
      simp only [Bool.and_eq_true] at hcond
      obtain ⟨⟨⟨h1, h2⟩, h3⟩, h4⟩ := hcond
      split at h
      case h_2 => exact absurd h (by simp)
      case h_1 l1 l2 l3 rest3 heq =>
        split at h
        case isFalse => exact absurd h (by simp)
        case isTrue hcond2 =>
          simp only [Bool.and_eq_true] at hcond2
          obtain ⟨⟨h5, h6⟩, h7⟩ := hcond2
          obtain ⟨hm, hr⟩ := Prod.mk.injEq .. ▸ Option.some.injEq .. ▸ h
          have hws : ∀ x ∈ rest.takeWhile isWsChar, isWsChar x = true :=
            fun x hx => mem_takeWhile_sat hx
          have hclean : cleanStr m = [c1, c2, c3, c4, l1, l2, l3] := by
            rw [← hm]
            simp only [cleanStr, List.filter_cons, List.filter_append,
              isWsChar_eq_false_of_isAZ h1, isWsChar_eq_false_of_isAZ h2,
              isWsChar_eq_false_of_isDigitCh h3, isWsChar_eq_false_of_isDigitCh h4,
              isWsChar_eq_false_of_isAZ h5, isWsChar_eq_false_of_isAZ h6,
              isWsChar_eq_false_of_isAZ h7, Bool.not_false, if_true,
              filter_keep_eq_nil_of_all_ws hws, List.nil_append, List.map_cons,
              jsToUpper_of_isAZ h1, jsToUpper_of_isAZ h2,
              jsToUpper_of_isDigitCh h3, jsToUpper_of_isDigitCh h4,
              jsToUpper_of_isAZ h5, jsToUpper_of_isAZ h6, jsToUpper_of_isAZ h7,
              List.filter_nil, List.map_nil]
          rw [hclean]
          have := @matchCurrent_of_shape [c1, c2] [c3, c4] [l1, l2, l3] rfl rfl rfl
            (by intro x hx
                simp only [List.mem_cons, List.not_mem_nil, or_false] at hx
                rcases hx with rfl | rfl
                · exact h1
                · exact h2)
            (by intro x hx
                simp only [List.mem_cons, List.not_mem_nil, or_false] at hx
                rcases hx with rfl | rfl
                · exact h3
                · exact h4)
            (by intro x hx
                simp only [List.mem_cons, List.not_mem_nil, or_false] at hx
                rcases hx with rfl | rfl | rfl
                · exact h5
                · exact h6
                · exact h7)
          simpa using this

lemma scanPlatesAux_sound :
    ∀ (fuel : Nat) (s m : Str), m ∈ scanPlatesAux fuel s →
      matchCurrent (cleanStr m) = true
  | 0, _, _, h => by simp [scanPlatesAux] at h
  | _ + 1, [], _, h => by simp [scanPlatesAux] at h
  | fuel + 1, c :: rest, m, h => by
    rcases hm : matchPlateAt (c :: rest) with _ | ⟨m0, r⟩
    · rw [scanPlatesAux, hm] at h
      exact scanPlatesAux_sound fuel rest m h
    · rw [scanPlatesAux, hm] at h
      rcases List.mem_cons.mp h with rfl | h'
      · exact matchPlateAt_sound hm
      · exact scanPlatesAux_sound fuel r m h'

/-- Candidates validated by the per-fragment method reach the final extracted
list. -/
lemma mem_extract_of_valid_trimmed {anns : List TextAnnot} {a : TextAnnot}
    (ha : a ∈ anns) (ht : trimStr a.description ≠ [])
    (hv : isValidUKLicensePlate (trimStr a.description) = true) :
    cleanStr (trimStr a.description) ∈ extractLicensePlates anns := by
  have h2 : cleanStr (trimStr a.description) ∈ method2Plates anns := by
    refine List.mem_filterMap.mpr ⟨a, ha, ?_⟩
    simp only [if_pos (And.intro ht hv)]
  refine mem_dedupe.mpr ?_
  simp only [List.mem_append]
  exact Or.inl (Or.inl (Or.inr h2))

/-- C1, counterexample: the annotation sequence `["CVK"]` makes the response
carry `licensePlates = ["CVK"]`, yet `CVK` matches only the bare
three-letter partial shape and no complete plate format. -/
theorem bare_triple_letters_reach_response :
    (handleUpload httpFail [annot "CVK"]).1.licensePlates = some ["CVK".data] ∧
    matchPartial3 "CVK".data = true ∧
    matchPartial4 "CVK".data = false ∧
    matchCurrent "CVK".data = false ∧
    matchPrefixFormat "CVK".data = false ∧
    matchSuffixFormat "CVK".data = false ∧
    matchDateless "CVK".data = false := by
  decide

/-- C1 (amended): a string matching only a partial-fragment shape can be
present in the final deduplicated `licensePlates` list: every annotation whose
trimmed text passes the matcher — partial shapes included — is surfaced,
normalized, in the response's `licensePlates`. -/
theorem valid_fragment_surfaced_in_response (http : Str → HttpResult)
    (anns : List TextAnnot) (a : TextAnnot) (ha : a ∈ anns)
    (ht : trimStr a.description ≠ [])
    (hv : isValidUKLicensePlate (trimStr a.description) = true) :
    ∃ plates, (handleUpload http anns).1.licensePlates = some plates ∧
      cleanStr (trimStr a.description) ∈ plates := by
  have hmem := mem_extract_of_valid_trimmed ha ht hv
  cases anns with
  | nil => exact absurd ha (List.not_mem_nil a)
  | cons a0 tl =>
    cases hE : extractLicensePlates (a0 :: tl) with
    | nil => rw [hE] at hmem; exact absurd hmem (List.not_mem_nil _)
    | cons p rest =>
      refine ⟨p :: rest, ?_, hE ▸ hmem⟩
      simp only [handleUpload, hE]

/-- C1, witness: the amended statement at the annotation sequence `["CVK"]`. -/
theorem valid_fragment_surfaced_in_response_inst :
    ∃ plates, (handleUpload httpFail [annot "CVK"]).1.licensePlates = some plates ∧
      cleanStr (trimStr (annot "CVK").description) ∈ plates :=
  valid_fragment_surfaced_in_response httpFail [annot "CVK"] (annot "CVK")
    (List.mem_cons_self _ _) (by decide) (by decide)

/-- C2, counterexample: a timed-out registry call and a confirmed 404 produce
the very same observable outcome (`none`), so the two failure kinds are not
distinct values for the caller. -/
theorem timeout_and_notfound_collapse :
    (lookupVehicle httpFail "AB12CDE".data).1 =
      (lookupVehicle http404 "AB12CDE".data).1 ∧
    (lookupVehicle httpFail "AB12CDE".data).1 = none := ⟨rfl, rfl⟩

/-- C2 (amended): the lookup does not distinguish failure kinds — a network
error (timeout) and any HTTP error response, 404 included, all yield the same
`none` outcome. -/
theorem lookup_failures_yield_none :
    ∀ (reg : Str) (code : Nat),
      (lookupVehicle httpFail reg).1 = none ∧
      (lookupVehicle (fun _ => HttpResult.errorResponse code) reg).1 = none :=
  fun _ _ => ⟨rfl, rfl⟩

/-- C3, counterexample: on `["YF65CVK plate photo", "YF", "65", "CVK"]` the
deduplicated result is `["YF65CVK", "CVK", "YF65"]`, not the single entry
`["YF65CVK"]` the claim states. -/
theorem yf65cvk_extraction_not_singleton :
    extractLicensePlates
        [annot "YF65CVK plate photo", annot "YF", annot "65", annot "CVK"] =
      ["YF65CVK".data, "CVK".data, "YF65".data] ∧
    extractLicensePlates
        [annot "YF65CVK plate photo", annot "YF", annot "65", annot "CVK"] ≠
      ["YF65CVK".data] := by
  decide

/-- C3 (amended): on `["YF65CVK plate photo", "YF", "65", "CVK"]` extraction
produces `YF65CVK` via both the full-text strategy and the three-fragment
strategy, and after deduplication `YF65CVK` appears exactly once, first — but
the list also retains the validated fragments `CVK` and `YF65`. -/
theorem yf65cvk_extraction_full_result :
    method1Plates
        [annot "YF65CVK plate photo", annot "YF", annot "65", annot "CVK"] =
      ["YF65CVK".data] ∧
    method4Plates
        [annot "YF65CVK plate photo", annot "YF", annot "65", annot "CVK"] =
      ["YF65CVK".data] ∧
    extractLicensePlates
        [annot "YF65CVK plate photo", annot "YF", annot "65", annot "CVK"] =
      ["YF65CVK".data, "CVK".data, "YF65".data] ∧
    List.count "YF65CVK".data
        (extractLicensePlates
          [annot "YF65CVK plate photo", annot "YF", annot "65", annot "CVK"]) = 1 := by
  decide

/-- C4, counterexample: for the one-annotation sequence `["ABC1"]` the
single-fragment strategy yields `ABC1`, which can only originate from the
first (full-image-text) annotation — there are no later annotations and no
other strategy produces it. -/
theorem first_text_tested_as_fragment :
    method2Plates [annot "ABC1"] = ["ABC1".data] ∧
    textSegments [annot "ABC1"] = [] ∧
    method1Plates [annot "ABC1"] = [] ∧
    method3Plates [annot "ABC1"] = [] ∧
    method4Plates [annot "ABC1"] = [] ∧
    extractLicensePlates [annot "ABC1"] = ["ABC1".data] := by
  decide

/-- C4 (amended): the per-fragment strategy tests every annotation including
the first: the first annotation's trimmed text, when nonempty and accepted by
the matcher, becomes a candidate of the single-fragment strategy. -/
theorem head_fragment_validated (a : TextAnnot) (rest : List TextAnnot)
    (ht : trimStr a.description ≠ [])
    (hv : isValidUKLicensePlate (trimStr a.description) = true) :
    cleanStr (trimStr a.description) ∈ method2Plates (a :: rest) := by
  refine List.mem_filterMap.mpr ⟨a, List.mem_cons_self a rest, ?_⟩
  simp only [if_pos (And.intro ht hv)]

/-- C4, witness: the first annotation `"ABC1"` is itself validated. -/
theorem head_fragment_validated_inst :
    cleanStr (trimStr (annot "ABC1").description) ∈ method2Plates [annot "ABC1"] :=
  head_fragment_validated (annot "ABC1") [] (by decide) (by decide)

/-- C5, counterexample: with a space between the letter pair and the digit
pair, as in `"AB 12 CDE"`, the full-text regex scan yields no candidate at
all — the claimed `AB12CDE` is not produced. -/
theorem spaced_letter_digit_scan_empty :
    method1Plates [annot "AB 12 CDE"] = [] ∧
    scanPlates (cleanFullText "AB 12 CDE".data) = [] := by
  decide

/-- C5 (amended): the full-text scan matches 2 letters immediately followed by
2 digits, then optional whitespace, then 3 letters — whitespace is permitted
only before the final letter triple — so every match normalizes to the
current format. -/
theorem scan_matches_are_current_format (s m : Str) (hm : m ∈ scanPlates s) :
    matchCurrent (cleanStr m) = true :=
  scanPlatesAux_sound s.length s m hm

/-- C5, witness: the scan accepts `"AB12 CDE"` (space only before the letter
triple) and the match normalizes to current format. -/
theorem scan_matches_are_current_format_inst :
    "AB12 CDE".data ∈ scanPlates "AB12 CDE".data ∧
    matchCurrent (cleanStr "AB12 CDE".data) = true :=
  ⟨by decide,
   scan_matches_are_current_format "AB12 CDE".data "AB12 CDE".data (by decide)⟩

/-- C6, counterexample: the matcher accepts the lowercase `"ab12cde"` and the
space-bearing `"AB12 CDE"`, which the claim says it rejects. -/
theorem matcher_accepts_unnormalized :
    isValidUKLicensePlate "ab12cde".data = true ∧
    isValidUKLicensePlate "AB12 CDE".data = true := by
  decide

/-- C6 (amended): the matcher re-normalizes its input — it strips all
whitespace and uppercases before the structural test, so its result is the
pattern-array test applied to the normalized string. -/
theorem matcher_normalizes_input :
    ∀ s : Str, isValidUKLicensePlate s = ukPatternTest (cleanStr s) := by
  intro s
  cases hc : matchCurrent (cleanStr s) with
  | false => simp [isValidUKLicensePlate, ukPatternTest, hc]
  | true => simp [isValidUKLicensePlate, ukPatternTest, hc]

/-- C7: every string of exactly 2 uppercase letters, 2 digits, 3 uppercase
letters is accepted; every string shorter than 2 characters, and every
all-digit string, is rejected. -/
theorem plate_matcher_shape_spec :
    (∀ a b c : Str, a.length = 2 → b.length = 2 → c.length = 3 →
      (∀ x ∈ a, isAZ x = true) → (∀ x ∈ b, isDigitCh x = true) →
      (∀ x ∈ c, isAZ x = true) → isValidUKLicensePlate (a ++ b ++ c) = true) ∧
    (∀ s : Str, s.length < 2 → isValidUKLicensePlate s = false) ∧
    (∀ s : Str, (∀ x ∈ s, isDigitCh x = true) → isValidUKLicensePlate s = false) := by
  refine ⟨?_, ?_, ?_⟩
  · intro a b c ha hb hc haz hbd hcz
    have hclean : cleanStr (a ++ b ++ c) = a ++ b ++ c := by
      apply cleanStr_eq_self_of_classes
      intro x hx
      rcases List.mem_append.mp hx with hx' | hx'
      · rcases List.mem_append.mp hx' with hx'' | hx''
        · exact Or.inl (haz x hx'')
        · exact Or.inr (hbd x hx'')
      · exact Or.inl (hcz x hx')
    have hcur := matchCurrent_of_shape ha hb hc haz hbd hcz
    simp only [isValidUKLicensePlate, ukPatternTest, hclean, hcur,
      Bool.and_true, Bool.true_or, Bool.or_true]
  · intro s hs
    have hlen : (cleanStr s).length < 2 :=
      lt_of_le_of_lt (cleanStr_length_le s) hs
    have hcur : matchCurrent (cleanStr s) = false := by
      cases hb : matchCurrent (cleanStr s)
      · rfl
      · have := matchCurrent_length hb; omega
    simp [isValidUKLicensePlate, ukPatternTest_eq_false_of_short hlen, hcur]
  · intro s hdig
    have hclean : cleanStr s = s :=
      cleanStr_eq_self_of_classes (fun x hx => Or.inr (hdig x hx))
    have hpat := ukPatternTest_eq_false_of_all_digits hdig
    have hcur : matchCurrent s = false := by
      cases hb : matchCurrent s
      · rfl
      · simp [ukPatternTest, hb] at hpat
    simp [isValidUKLicensePlate, hclean, hpat, hcur]

/-- C7, witness: the three parts at `"AB" ++ "12" ++ "CDE"`, `"A"`, `"123"`. -/
theorem plate_matcher_shape_spec_inst :
    isValidUKLicensePlate ("AB".data ++ "12".data ++ "CDE".data) = true ∧
    isValidUKLicensePlate "A".data = false ∧
    isValidUKLicensePlate "123".data = false :=
  ⟨plate_matcher_shape_spec.1 "AB".data "12".data "CDE".data
      (by decide) (by decide) (by decide) (by decide) (by decide) (by decide),
   plate_matcher_shape_spec.2.1 "A".data (by decide),
   plate_matcher_shape_spec.2.2 "123".data (by decide)⟩

/-- C8: deduplication is an order-preserving set reduction — no duplicates,
a subsequence of its input with the same members, equal to the left fold that
appends first occurrences, idempotent — and the extractor is exactly this
reduction applied to the four strategies' outputs concatenated in order. -/
theorem dedupe_set_reduction_spec :
    (∀ xs : List Str, dedupe (dedupe xs) = dedupe xs) ∧
    (∀ xs : List Str, (dedupe xs).Nodup) ∧
    (∀ xs : List Str, (dedupe xs).Sublist xs) ∧
    (∀ (xs : List Str) (a : Str), a ∈ dedupe xs ↔ a ∈ xs) ∧
    (∀ xs : List Str,
      dedupe xs = xs.foldl (fun acc x => if x ∈ acc then acc else acc ++ [x]) []) ∧
    (∀ anns : List TextAnnot, extractLicensePlates anns =
      dedupe (method1Plates anns ++ method2Plates anns ++
        method3Plates anns ++ method4Plates anns)) := by
  refine ⟨dedupe_idem, dedupe_nodup, fun xs => dedupeAux_sublist xs [],
    fun xs a => mem_dedupe, fun xs => ?_, fun anns => rfl⟩
  rw [foldl_insert_eq_dedupeAux xs []]
  rfl

/-- C9: whenever extraction yields a nonempty deduplicated list, exactly one
registry request is issued, keyed by the first candidate with whitespace
stripped and uppercased; the full candidate list is reported as
`licensePlates`, and the response's vehicle payload is the lookup's result
for that first candidate only. -/
theorem single_lookup_first_candidate (http : Str → HttpResult)
    (anns : List TextAnnot) (p : Str) (rest : List Str)
    (hE : extractLicensePlates anns = p :: rest) :
    (handleUpload http anns).2 = [cleanStr p] ∧
    (handleUpload http anns).1.licensePlates = some (p :: rest) ∧
    (handleUpload http anns).1.vehicleData = (lookupVehicle http p).1 := by
  cases anns with
  | nil =>
    have : extractLicensePlates [] = [] := rfl
    rw [this] at hE
    exact absurd hE (by simp)
  | cons a0 tl =>
    refine ⟨?_, ?_, ?_⟩ <;> simp only [handleUpload, hE, lookupVehicle]

/-- C9, witness: the single annotation `"AB12CDE"` triggers exactly one
registry request, keyed `AB12CDE`. -/
theorem single_lookup_first_candidate_inst :
    (handleUpload httpFail [annot "AB12CDE"]).2 = [cleanStr "AB12CDE".data] ∧
    (handleUpload httpFail [annot "AB12CDE"]).1.licensePlates =
      some ("AB12CDE".data :: []) ∧
    (handleUpload httpFail [annot "AB12CDE"]).1.vehicleData =
      (lookupVehicle httpFail "AB12CDE".data).1 :=
  single_lookup_first_candidate httpFail [annot "AB12CDE"] "AB12CDE".data []
    (by decide)

/-- C10: if all stored records have pairwise distinct `fullModel` keys, then a
save whose key is already present leaves the collection unchanged, a save with
a fresh key appends exactly the one new record carrying the lowercase
`make model` join, and in either case the distinct-keys invariant holds
afterwards. -/
theorem save_preserves_fullModel_unique (coll : List CollectedVehicle)
    (v : VehicleData) (uri nid ds : Str)
    (h : (coll.map CollectedVehicle.fullModel).Nodup) :
    ((saveToCollection coll v uri nid ds).map CollectedVehicle.fullModel).Nodup ∧
    (fullModelKey v ∈ coll.map CollectedVehicle.fullModel →
      saveToCollection coll v uri nid ds = coll) ∧
    (fullModelKey v ∉ coll.map CollectedVehicle.fullModel →
      saveToCollection coll v uri nid ds =
        coll ++ [{ id := nid, make := v.make, model := v.model, imageUri := uri,
                   dateSpotted := ds, fullModel := fullModelKey v }]) := by
  by_cases hmem : fullModelKey v ∈ coll.map CollectedVehicle.fullModel
  · have hany : coll.any (fun item => decide (item.fullModel = fullModelKey v)) = true := by
      rcases List.mem_map.mp hmem with ⟨x, hx, hfx⟩
      exact List.any_eq_true.mpr ⟨x, hx, by simp [hfx]⟩
    have heq : saveToCollection coll v uri nid ds = coll := by
      simp only [saveToCollection, hany, if_true]
    exact ⟨by rw [heq]; exact h, fun _ => heq, fun hn => absurd hmem hn⟩
  · have hany : coll.any (fun item => decide (item.fullModel = fullModelKey v)) = false := by
      cases hb : coll.any (fun item => decide (item.fullModel = fullModelKey v))
      · rfl
      · rcases List.any_eq_true.mp hb with ⟨x, hx, hpx⟩
        simp only [decide_eq_true_eq] at hpx
        exact absurd (List.mem_map.mpr ⟨x, hx, hpx⟩) hmem
    have heq : saveToCollection coll v uri nid ds =
        coll ++ [{ id := nid, make := v.make, model := v.model, imageUri := uri,
                   dateSpotted := ds, fullModel := fullModelKey v }] := by
      simp only [saveToCollection, hany, Bool.false_eq_true, if_false]
    refine ⟨?_, fun hmem' => absurd hmem' hmem, fun _ => heq⟩
    rw [heq, List.map_append]
    have := (List.Nodup.concat hmem h :
      ((coll.map CollectedVehicle.fullModel).concat (fullModelKey v)).Nodup)
    rw [List.concat_eq_append] at this
    simpa using this

/-- C10, witness: saving the sample vehicle into the empty collection. -/
theorem save_preserves_fullModel_unique_inst :
    ((saveToCollection [] sampleVehicle "file:a".data "1".data "d1".data).map
      CollectedVehicle.fullModel).Nodup ∧
    saveToCollection [] sampleVehicle "file:a".data "1".data "d1".data =
      [] ++ [{ id := "1".data, make := sampleVehicle.make,
               model := sampleVehicle.model, imageUri := "file:a".data,
               dateSpotted := "d1".data, fullModel := fullModelKey sampleVehicle }] :=
  ⟨(save_preserves_fullModel_unique [] sampleVehicle "file:a".data "1".data
      "d1".data (by simp)).1,
   (save_preserves_fullModel_unique [] sampleVehicle "file:a".data "1".data
      "d1".data (by simp)).2.2 (by simp)⟩
